import Mathlib

/-!
Verification of the docext document-to-markdown conversion pipeline
(`src/docext/app/pdf2md.py`).

The Python source is shallowly embedded as follows.

* Python strings are Lean `String`s; the string-scanning primitives the
  source relies on (`str.replace`, `str.count`, the `in` containment test
  and `str.split`) are modelled on `List Char` by `replaceAll`, `countOcc`,
  `hasSub` and `splitSep`, each with Python's leftmost non-overlapping
  match semantics.  They are driven by explicit fuel (one unit per
  character position examined, so `s.length` fuel always suffices) to keep
  them kernel-evaluable.
* The generators `process_images_to_markdown_stream` and
  `process_uploaded_files_to_markdown` are total functions returning the
  list of yielded fragments.  Each `yield` site of the source corresponds
  to one `Fragment` constructor carrying the data interpolated into the
  yielded f-string (request ids, produced by `uuid.uuid4`, are
  nondeterministic presentation data and are not carried).
* External effects are an oracle record `Config`:
  whether `MISTRAL_API_KEY` is set, the outcome of constructing
  `MistralOCRClient`, the per-file outcome of
  `MistralOCRClient.extract_text_from_file`, the per-file outcome of
  `convert_files_to_images`, and the chunks produced by the external
  routine `convert_to_markdown_stream` (which may end in a raised
  exception, modelled as an optional trailing error message).
  `convert_to_markdown_stream` itself is not part of the sources;
  where a property depends on its behaviour we assume the contract the
  specification gives for it (one chunk per page, signalled by a
  delimiter token in the chunk).
-/

namespace Docext

/-- Python-style leftmost non-overlapping substring replacement
(`s.replace(pat, repl)`) on character lists, driven by explicit fuel.
Each step consumes at least one character of `s`, so `s.length` fuel is
always enough.  (Python's special case of an empty pattern is irrelevant
here: every pattern used below is non-empty.) -/
def replaceFuel (pat repl : List Char) : Nat → List Char → List Char
  | 0, s => s
  | _ + 1, [] => []
  | fuel + 1, c :: rest =>
    if pat.isPrefixOf (c :: rest) then
      repl ++ replaceFuel pat repl fuel (List.drop (pat.length - 1) rest)
    else
      c :: replaceFuel pat repl fuel rest

/-- Python's `s.replace(pat, repl)` on character lists. -/
def replaceAll (pat repl s : List Char) : List Char :=
  replaceFuel pat repl s.length s

/-- Fuel-driven core of Python's `s.count(pat)` (non-overlapping). -/
def countOccFuel (pat : List Char) : Nat → List Char → Nat
  | 0, _ => 0
  | _ + 1, [] => 0
  | fuel + 1, c :: rest =>
    if pat.isPrefixOf (c :: rest) then
      countOccFuel pat fuel (List.drop (pat.length - 1) rest) + 1
    else
      countOccFuel pat fuel rest

/-- Python's `s.count(pat)`: number of non-overlapping occurrences. -/
def countOcc (pat s : List Char) : Nat := countOccFuel pat s.length s

/-- Python's containment test `pat in s`. -/
def hasSub (pat : List Char) : List Char → Bool
  | [] => pat.isEmpty
  | c :: rest => pat.isPrefixOf (c :: rest) || hasSub pat rest

/-- Fuel-driven core of Python's `s.split(sep)` for a non-empty separator.
`acc` holds the current field reversed. -/
def splitSepFuel (sep : List Char) : Nat → List Char → List Char → List (List Char)
  | 0, acc, s => [acc.reverse ++ s]
  | _ + 1, acc, [] => [acc.reverse]
  | fuel + 1, acc, c :: rest =>
    if sep.isPrefixOf (c :: rest) then
      acc.reverse :: splitSepFuel sep fuel [] (List.drop (sep.length - 1) rest)
    else
      splitSepFuel sep fuel (c :: acc) rest

/-- Python's `s.split(sep)` for a non-empty separator: splits on leftmost
non-overlapping occurrences; `"".split(sep) == [""]`. -/
def splitSep (sep s : List Char) : List (List Char) :=
  splitSepFuel sep s.length [] s

/-- The eight tag/escape replacement pairs of `process_tags`
(src/docext/app/pdf2md.py lines 21-28), in source order. -/
def tagPairs : List (List Char × List Char) :=
  [("<img>".data, "&lt;img&gt;".data),
   ("</img>".data, "&lt;/img&gt;".data),
   ("<watermark>".data, "&lt;watermark&gt;".data),
   ("</watermark>".data, "&lt;/watermark&gt;".data),
   ("<page_number>".data, "&lt;page_number&gt;".data),
   ("</page_number>".data, "&lt;/page_number&gt;".data),
   ("<signature>".data, "&lt;signature&gt;".data),
   ("</signature>".data, "&lt;/signature&gt;".data)]

/-- The eight raw tokens the sanitizer escapes. -/
def rawTags : List String :=
  ["<img>", "</img>", "<watermark>", "</watermark>",
   "<page_number>", "</page_number>", "<signature>", "</signature>"]

/-- Body of `process_tags`: the eight sequential `content.replace(...)`
statements, folded in source order. -/
def process_tags_list (content : List Char) : List Char :=
  tagPairs.foldl (fun acc pr => replaceAll pr.1 pr.2 acc) content

/-- `process_tags` (src/docext/app/pdf2md.py lines 20-30): the Tag
Sanitizer. -/
def process_tags (content : String) : String :=
  String.mk (process_tags_list content.data)

/-- One fragment yielded by the orchestrator or the VLM driver.  Each
constructor corresponds to one `yield` site in
src/docext/app/pdf2md.py and carries the data interpolated into the
yielded f-string. -/
inductive Fragment where
  /-- line 136: yield "No files uploaded. Please upload one or more documents." -/
  | noFiles : Fragment
  /-- line 149: yield "⚠️ **Warning**: Could not initialize Mistral OCR client: e ..." -/
  | initWarning (err : String) : Fragment
  /-- line 163: yield "⏳ Attempting Mistral OCR for basename(file) ..." -/
  | mistralAttempt (file : String) : Fragment
  /-- lines 175/177: one Mistral OCR page: page index `page = i+1` of
  `total = num_pages`; the page-progress header "(Page i+1 of num_pages)"
  is prefixed and the separator appended exactly when `total > 1`;
  `content` is the already-sanitized page markdown. -/
  | mistralPage (file : String) (page total : Nat) (content : String) : Fragment
  /-- line 182: yield "⚠️ **Mistral OCR Error for basename(file)**: e. Falling back to VLLM." -/
  | mistralError (file : String) (err : String) : Fragment
  /-- line 187: yield "⏳ Using default VLLM model for basename(file) ..." -/
  | vllmNotice (file : String) : Fragment
  /-- line 194: yield "⚠️ Could not convert basename(file) to images for VLLM processing." -/
  | rasterEmpty (file : String) : Fragment
  /-- lines 121/123: one driver chunk; `header = some (shown, total)` when the
  progress header "(Processing page shown of total)" is prefixed, `content`
  is the already-sanitized chunk. -/
  | vllmChunk (header : Option (Nat × Nat)) (content : String) : Fragment
  /-- line 132: yield "❌ **Error in VLLM processing (Request rid)**: e"; the
  message `e` is carried verbatim (it is not passed through `process_tags`). -/
  | vllmError (err : String) : Fragment
  /-- line 204: yield "❌ **Error in VLLM fallback for basename(file)**: e" -/
  | vllmFallbackError (file : String) (err : String) : Fragment
  /-- line 206: yield "✅ Finished processing basename(file). ..." -/
  | fileComplete (file : String) : Fragment
deriving DecidableEq, Repr

/-- External-effect oracle for one orchestration run. -/
structure Config where
  /-- Python truthiness of `os.getenv("MISTRAL_API_KEY")`. -/
  mistralKeySet : Bool
  /-- Outcome of `MistralOCRClient()` construction (consulted once per run). -/
  clientInit : Except String Unit
  /-- Per-file outcome of `mistral_client.extract_text_from_file(path)`. -/
  mistralOCR : String → Except String String
  /-- Per-file outcome of `convert_files_to_images([path], max_img_size)`. -/
  rasterizeFile : String → Except String (List String)
  /-- Chunks yielded by the external `convert_to_markdown_stream(images, ...)`
  before it is exhausted, paired with the message of the exception it raises
  mid-stream, if any. -/
  vllmStream : List String → List String × Option String

/-- Whether `mistral_client` is non-None when the per-file loop starts. -/
def hasClient (cfg : Config) : Bool :=
  cfg.mistralKeySet &&
    (match cfg.clientInit with
     | .ok _ => true
     | .error _ => false)

/-- Fragments yielded before the per-file loop (lines 140-152): exactly the
construction-failure warning, when the key is set and construction raises. -/
def initFragments (cfg : Config) : List Fragment :=
  if cfg.mistralKeySet then
    match cfg.clientInit with
    | .ok _ => []
    | .error e => [Fragment.initWarning e]
  else []

/-- The chunk loop of `process_images_to_markdown_stream`
(lines 109-127): `current_page` starts at 1; each chunk is yielded with a
"(Processing page min(current_page, num_pages) of num_pages)" header when
`num_pages > 1` (content sanitized by `process_tags` in both branches);
afterwards `current_page` is set to `chunk.count("---") + 1` when
`"---" in chunk`. -/
def streamLoop (num_pages : Nat) : Nat → List String → List Fragment
  | _, [] => []
  | current_page, chunk :: rest =>
    let frag :=
      if num_pages > 1 then
        Fragment.vllmChunk (some (min current_page num_pages, num_pages)) (process_tags chunk)
      else
        Fragment.vllmChunk none (process_tags chunk)
    let next_page :=
      if hasSub "---".data chunk.data then countOcc "---".data chunk.data + 1
      else current_page
    frag :: streamLoop num_pages next_page rest

/-- `process_images_to_markdown_stream` (lines 102-132): the Backend B (VLM)
driver.  All chunks yielded before a mid-stream exception are emitted; the
exception, if any, is converted into one terminal `vllmError` fragment
carrying its message verbatim. -/
def process_images_to_markdown_stream (cfg : Config) (images_list : List String) :
    List Fragment :=
  let num_pages := if images_list.isEmpty then 0 else images_list.length
  let outcome := cfg.vllmStream images_list
  streamLoop num_pages 1 outcome.1 ++
    (match outcome.2 with
     | some e => [Fragment.vllmError e]
     | none => [])

/-- Line 170: `pages = markdown_output.split("\n\n---\n\n")`. -/
def mistralPages (markdown_output : String) : List String :=
  (splitSep "\n\n---\n\n".data markdown_output.data).map String.mk

/-- The Mistral (Backend A) phase for one file (lines 159-183): the
fragments it yields paired with the resulting `use_vllm_fallback` flag. -/
def mistralPhase (cfg : Config) (hc : Bool) (file : String) : List Fragment × Bool :=
  if hc then
    match cfg.mistralOCR file with
    | .ok markdown_output =>
      let pages := mistralPages markdown_output
      let num_pages := pages.length
      (Fragment.mistralAttempt file ::
        pages.enum.map (fun ip =>
          Fragment.mistralPage file (ip.1 + 1) num_pages (process_tags ip.2)),
       false)
    | .error e => ([Fragment.mistralAttempt file, Fragment.mistralError file e], true)
  else ([], true)

/-- The VLLM fallback phase for one file (lines 185-204): the fragments it
yields, paired with `false` exactly when the `continue` at line 195 is
taken (empty rasterization), which skips the file-complete fragment. -/
def fallbackPhase (cfg : Config) (file : String) : List Fragment × Bool :=
  match cfg.rasterizeFile file with
  | .error e => ([Fragment.vllmNotice file, Fragment.vllmFallbackError file e], true)
  | .ok image_paths =>
    if image_paths.isEmpty then
      ([Fragment.vllmNotice file, Fragment.rasterEmpty file], false)
    else
      (Fragment.vllmNotice file :: process_images_to_markdown_stream cfg image_paths, true)

/-- One iteration of the per-file loop (lines 154-206). -/
def processFile (cfg : Config) (hc : Bool) (file : String) : List Fragment :=
  let mp := mistralPhase cfg hc file
  if mp.2 then
    let fp := fallbackPhase cfg file
    mp.1 ++ fp.1 ++ (if fp.2 then [Fragment.fileComplete file] else [])
  else
    mp.1 ++ [Fragment.fileComplete file]

/-- `process_uploaded_files_to_markdown` (lines 134-206): the Conversion
Orchestrator.  `files = none` models a `None` argument; Python's
`if not files` covers both `None` and the empty list. -/
def process_uploaded_files_to_markdown (cfg : Config) (files : Option (List String)) :
    List Fragment :=
  let fs := files.getD []
  if fs.isEmpty then [Fragment.noFiles]
  else initFragments cfg ++ fs.flatMap (processFile cfg (hasClient cfg))

/-- Whether the per-file loop reaches the file-complete yield at line 206
for this file (it does not exactly when the fallback path hits the
`continue` at line 195). -/
def completesFile (cfg : Config) (hc : Bool) (file : String) : Bool :=
  if (mistralPhase cfg hc file).2 then (fallbackPhase cfg file).2 else true

/-- Classifier: file-complete fragments. -/
def Fragment.isFileComplete : Fragment → Bool
  | .fileComplete _ => true
  | _ => false

/-- The file name carried by a file-complete fragment. -/
def Fragment.completedFile : Fragment → Option String
  | .fileComplete f => some f
  | _ => none

/-- Classifier: Backend A page-content fragments. -/
def Fragment.isMistralContent : Fragment → Bool
  | .mistralPage _ _ _ _ => true
  | _ => false

/-- Classifier: Backend B page-content fragments. -/
def Fragment.isVllmContent : Fragment → Bool
  | .vllmChunk _ _ => true
  | _ => false

/-- Classifier: fragments produced by the Backend B driver. -/
def Fragment.isVllmDriverFrag : Fragment → Bool
  | .vllmChunk _ _ => true
  | .vllmError _ => true
  | _ => false

/-- Classifier: terminal error fragments standing in for missing output
(empty rasterization, driver mid-stream failure, fallback failure). -/
def Fragment.isErrorFrag : Fragment → Bool
  | .rasterEmpty _ => true
  | .vllmError _ => true
  | .vllmFallbackError _ _ => true
  | _ => false

/-- Classifier: the run-level client-construction warning. -/
def Fragment.isInitWarning : Fragment → Bool
  | .initWarning _ => true
  | _ => false

/-- Classifier: any fragment referencing the secondary (Mistral) backend. -/
def Fragment.isMistralFrag : Fragment → Bool
  | .mistralAttempt _ => true
  | .mistralPage _ _ _ _ => true
  | .mistralError _ _ => true
  | _ => false

/-- The page-progress header carried by a driver chunk, if any. -/
def Fragment.headerOf : Fragment → Option (Nat × Nat)
  | .vllmChunk h _ => h
  | _ => none

/-- Shape conditions the sanitizer proofs need from each replacement pair:
the pattern starts with the lt character and is amp-free; the replacement
starts with the amp character and is lt-free. -/
def goodPair (pr : List Char × List Char) : Prop :=
  pr.1.head? = some '<' ∧ '&' ∉ pr.1 ∧ pr.2.head? = some '&' ∧ '<' ∉ pr.2

instance (pr : List Char × List Char) : Decidable (goodPair pr) := by
  unfold goodPair
  infer_instance

/-- Modelled from the spec: the contract of the external routine
`convert_to_markdown_stream` (docext/core/pdf2md/pdf2md.py, which is not
under src/).  Spec §4.2 describes the routine as "a black box returning a
lazy sequence of text chunks keyed to page boundaries" and the driver's
output as containing one chunk per page, in page order; so whenever the
routine completes without raising, it has yielded one chunk per page
image. -/
def streamProduces (cfg : Config) : Prop :=
  ∀ imgs : List String,
    (cfg.vllmStream imgs).2 = none → (cfg.vllmStream imgs).1.length = imgs.length

/-! ### Concrete run configurations used by witnesses and counterexamples -/

/-- No secondary credential; rasterization of any file yields no pages. -/
def cfgEmptyRaster : Config where
  mistralKeySet := false
  clientInit := .ok ()
  mistralOCR := fun _ => .error "unused"
  rasterizeFile := fun _ => .ok []
  vllmStream := fun _ => ([], none)

/-- No secondary credential; every file rasterizes to three page images and
the conversion routine yields one chunk per page, each chunk carrying
exactly one page-delimiter occurrence. -/
def cfgThreePages : Config where
  mistralKeySet := false
  clientInit := .ok ()
  mistralOCR := fun _ => .error "unused"
  rasterizeFile := fun _ => .ok ["p1", "p2", "p3"]
  vllmStream := fun _ => (["A\n\n---\n\n", "B\n\n---\n\n", "C\n\n---\n\n"], none)

/-- Secondary credential set, client constructed, but the Backend A call
raises for every file; the fallback path succeeds. -/
def cfgMistralFails : Config where
  mistralKeySet := true
  clientInit := .ok ()
  mistralOCR := fun _ => .error "boom"
  rasterizeFile := fun _ => .ok ["i1"]
  vllmStream := fun _ => (["md"], none)

/-- Secondary credential set but client construction raises. -/
def cfgInitFails : Config where
  mistralKeySet := true
  clientInit := .error "noauth"
  mistralOCR := fun _ => .error "unreachable"
  rasterizeFile := fun _ => .ok ["i1"]
  vllmStream := fun _ => (["md"], none)

/-- Secondary credential set; Backend A succeeds returning a two-page
document joined by the fixed separator. -/
def cfgMistralTwoPages : Config where
  mistralKeySet := true
  clientInit := .ok ()
  mistralOCR := fun _ => .ok "Page1\n\n---\n\nPage2"
  rasterizeFile := fun _ => .ok ["i1"]
  vllmStream := fun _ => ([], none)

/-- No secondary credential; the conversion routine yields exactly one
chunk per page image and never raises. -/
def cfgPerPage : Config where
  mistralKeySet := false
  clientInit := .ok ()
  mistralOCR := fun _ => .error "unused"
  rasterizeFile := fun _ => .ok ["i1", "i2"]
  vllmStream := fun imgs => (imgs.map (fun _ => "chunk\n\n---\n\n"), none)

/-- No secondary credential; the conversion routine raises immediately with
a message that itself contains a raw markup token. -/
def cfgRaisingStream : Config where
  mistralKeySet := false
  clientInit := .ok ()
  mistralOCR := fun _ => .error "unused"
  rasterizeFile := fun _ => .ok ["p1"]
  vllmStream := fun _ => ([], some "<img>")

/-! ### Generic lemmas about the string primitives -/

theorem replaceFuel_eq_of_le (pat repl : List Char) :
    ∀ fuel₁ fuel₂ s, s.length ≤ fuel₁ → s.length ≤ fuel₂ →
      replaceFuel pat repl fuel₁ s = replaceFuel pat repl fuel₂ s := by
  intro fuel₁
  induction fuel₁ with
  | zero =>
    intro fuel₂ s h₁ _
    have hs : s = [] := List.eq_nil_of_length_eq_zero (Nat.le_zero.mp h₁)
    subst hs
    cases fuel₂ <;> rfl
  | succ f₁ ih =>
    intro fuel₂ s h₁ h₂
    cases s with
    | nil => cases fuel₂ <;> rfl
    | cons c rest =>
      cases fuel₂ with
      | zero => simp at h₂
      | succ f₂ =>
        simp only [List.length_cons] at h₁ h₂
        have hr₁ : rest.length ≤ f₁ := by omega
        have hr₂ : rest.length ≤ f₂ := by omega
        have hd : (List.drop (pat.length - 1) rest).length ≤ rest.length := by
          simp [List.length_drop]
        simp only [replaceFuel]
        by_cases hp : pat.isPrefixOf (c :: rest)
        · rw [if_pos hp, if_pos hp]
          congr 1
          exact ih f₂ _ (le_trans hd hr₁) (le_trans hd hr₂)
        · rw [if_neg hp, if_neg hp]
          congr 1
          exact ih f₂ rest hr₁ hr₂

theorem replaceAll_nil (pat repl : List Char) : replaceAll pat repl [] = [] := rfl

theorem replaceAll_cons (pat repl : List Char) (c : Char) (rest : List Char) :
    replaceAll pat repl (c :: rest) =
      if pat.isPrefixOf (c :: rest) then
        repl ++ replaceAll pat repl (List.drop (pat.length - 1) rest)
      else
        c :: replaceAll pat repl rest := by
  have hd : (List.drop (pat.length - 1) rest).length ≤ rest.length := by
    simp [List.length_drop]
  show replaceFuel pat repl (rest.length + 1) (c :: rest) = _
  simp only [replaceFuel]
  by_cases hp : pat.isPrefixOf (c :: rest)
  · rw [if_pos hp, if_pos hp]
    congr 1
    exact replaceFuel_eq_of_le pat repl rest.length _ _ hd (le_refl _)
  · rw [if_neg hp, if_neg hp]
    rfl

/-- An occurrence of a pattern beginning with `a` inside `xs ++ R`, where `a`
does not occur in `xs`, lies inside `R`. -/
theorem occ_append_right_of_head_not_mem {a : Char} {pt xs R : List Char}
    (hx : a ∉ xs) (h : (a :: pt) <:+: xs ++ R) : (a :: pt) <:+: R := by
  induction xs with
  | nil => simpa using h
  | cons b xs ih =>
    rw [List.mem_cons, not_or] at hx
    rw [List.cons_append, List.infix_cons_iff] at h
    rcases h with h | h
    · rw [List.cons_prefix_cons] at h
      exact absurd h.1 hx.1
    · exact ih hx.2 h

/-- A prefix avoiding the replacement's first character survives
`replaceAll` backwards: if `p` avoids `b` and is a prefix of
`replaceAll pat (b :: rt) u`, then `p` is a prefix of `u`. -/
theorem prefix_of_prefix_replaceAll {pat : List Char} {b : Char} {rt : List Char} :
    ∀ (u p : List Char), b ∉ p → p <+: replaceAll pat (b :: rt) u → p <+: u
  | [], p, _, h => by
      rw [replaceAll_nil] at h
      simpa using h
  | c :: rest, p, hbp, h => by
      rw [replaceAll_cons] at h
      by_cases hp : pat.isPrefixOf (c :: rest)
      · rw [if_pos hp] at h
        cases p with
        | nil => simp
        | cons p₀ ps =>
          rw [List.cons_append, List.cons_prefix_cons] at h
          rw [List.mem_cons, not_or] at hbp
          exact absurd h.1.symm hbp.1
      · rw [if_neg hp] at h
        cases p with
        | nil => simp
        | cons p₀ ps =>
          rw [List.cons_prefix_cons] at h
          rw [List.mem_cons, not_or] at hbp
          have hps : ps <+: rest := prefix_of_prefix_replaceAll rest ps hbp.2 h.2
          rw [List.cons_prefix_cons]
          exact ⟨h.1, hps⟩

/-- Core sanitizer lemma.  Replacing `pat₂` by a replacement that starts
with `b` and avoids `a` can neither keep (case `pat₂ = a :: pt`) nor
introduce (case where the token was absent) an occurrence of a token
`a :: pt` that avoids `b`. -/
theorem no_occ_replaceAll {a b : Char} {pt rt pat₂ : List Char}
    (hb : b ∉ a :: pt) (ha : a ∉ b :: rt) :
    ∀ s : List Char, (pat₂ = a :: pt ∨ ¬ (a :: pt) <:+: s) →
      ¬ (a :: pt) <:+: replaceAll pat₂ (b :: rt) s
  | [], _ => by
      rw [replaceAll_nil]
      simp [List.infix_nil]
  | c :: rest, hcase => by
      rw [replaceAll_cons]
      by_cases hp : pat₂.isPrefixOf (c :: rest)
      · rw [if_pos hp]
        intro h
        have h' : (a :: pt) <:+: replaceAll pat₂ (b :: rt) (List.drop (pat₂.length - 1) rest) :=
          occ_append_right_of_head_not_mem ha h
        have hsub : List.drop (pat₂.length - 1) rest <:+: c :: rest :=
          List.IsSuffix.isInfix
            ((List.drop_suffix _ rest).trans (List.suffix_cons c rest))
        have hcase' : pat₂ = a :: pt ∨ ¬ (a :: pt) <:+: List.drop (pat₂.length - 1) rest := by
          rcases hcase with hc | hc
          · exact Or.inl hc
          · exact Or.inr (fun hocc => hc (hocc.trans hsub))
        exact no_occ_replaceAll hb ha _ hcase' h'
      · rw [if_neg hp]
        intro h
        rw [List.infix_cons_iff] at h
        rcases h with h | h
        · rw [List.cons_prefix_cons] at h
          have hbpt : b ∉ pt := by
            rw [List.mem_cons, not_or] at hb
            exact hb.2
          have hps : pt <+: rest := prefix_of_prefix_replaceAll rest pt hbpt h.2
          have hfull : (a :: pt) <+: c :: rest := by
            rw [List.cons_prefix_cons]
            exact ⟨h.1, hps⟩
          rcases hcase with hc | hc
          · apply hp
            rw [hc, List.isPrefixOf_iff_prefix]
            exact hfull
          · exact hc (List.IsPrefix.isInfix hfull)
        · have hcase' : pat₂ = a :: pt ∨ ¬ (a :: pt) <:+: rest := by
            rcases hcase with hc | hc
            · exact Or.inl hc
            · exact Or.inr (fun hocc =>
                hc (hocc.trans (List.IsSuffix.isInfix (List.suffix_cons c rest))))
          exact no_occ_replaceAll hb ha rest hcase' h
termination_by s _ => s.length
decreasing_by
  all_goals simp [List.length_drop] <;> omega

/-- `replaceAll` is the identity on strings without an occurrence of the
pattern. -/
theorem replaceAll_id_of_no_occ {pat repl : List Char} :
    ∀ s : List Char, ¬ pat <:+: s → replaceAll pat repl s = s
  | [], _ => replaceAll_nil pat repl
  | c :: rest, h => by
      have hp : ¬ pat.isPrefixOf (c :: rest) := by
        intro hpre
        exact h (List.IsPrefix.isInfix (List.isPrefixOf_iff_prefix.mp hpre))
      rw [replaceAll_cons]
      rw [if_neg hp]
      congr 1
      exact replaceAll_id_of_no_occ rest (fun hocc =>
        h (hocc.trans (List.IsSuffix.isInfix (List.suffix_cons c rest))))

/-! ### Sanitizer: absence of raw tokens and idempotence -/

theorem tagPairs_good : ∀ pr ∈ tagPairs, goodPair pr := by decide

theorem eq_cons_of_head_eq {a : Char} {l : List Char} (h : l.head? = some a) :
    l = a :: l.tail := by
  cases l with
  | nil => simp at h
  | cons b t =>
    simp only [List.head?_cons, Option.some.injEq] at h
    rw [List.tail_cons, h]

/-- One `replaceAll` step with a good pair neither keeps (when the pattern
is the token itself) nor introduces an occurrence of a good-shaped token. -/
theorem step_no_occ {tok : List Char} {pr : List Char × List Char}
    (htok : tok.head? = some '<' ∧ '&' ∉ tok) (hpr : goodPair pr)
    (s : List Char) (hcase : pr.1 = tok ∨ ¬ tok <:+: s) :
    ¬ tok <:+: replaceAll pr.1 pr.2 s := by
  obtain ⟨_, _, h3, h4⟩ := hpr
  have htokc : tok = '<' :: tok.tail := eq_cons_of_head_eq htok.1
  have hrepl : pr.2 = '&' :: pr.2.tail := eq_cons_of_head_eq h3
  have hb : '&' ∉ '<' :: tok.tail := by rw [← htokc]; exact htok.2
  have ha : '<' ∉ '&' :: pr.2.tail := by rw [← hrepl]; exact h4
  have hres :=
    @no_occ_replaceAll '<' '&' tok.tail pr.2.tail pr.1 hb ha s
      (by rw [← htokc]; exact hcase)
  rw [← hrepl] at hres
  rw [htokc]
  exact hres

theorem foldl_preserves_no_occ {tok : List Char}
    (htok : tok.head? = some '<' ∧ '&' ∉ tok) :
    ∀ (prs : List (List Char × List Char)) (s : List Char),
      (∀ pr ∈ prs, goodPair pr) → ¬ tok <:+: s →
      ¬ tok <:+: prs.foldl (fun acc pr => replaceAll pr.1 pr.2 acc) s
  | [], _, _, hs => hs
  | pr :: prs, s, hgood, hs => by
      simp only [List.foldl_cons]
      exact foldl_preserves_no_occ htok prs _
        (fun q hq => hgood q (List.mem_cons_of_mem _ hq))
        (step_no_occ htok (hgood pr (List.mem_cons_self _ _)) s (Or.inr hs))

theorem foldl_elim_no_occ :
    ∀ (prs : List (List Char × List Char)) (s : List Char),
      (∀ pr ∈ prs, goodPair pr) →
      ∀ pr ∈ prs, ¬ pr.1 <:+: prs.foldl (fun acc q => replaceAll q.1 q.2 acc) s
  | [], _, _, _, hmem => absurd hmem (by simp)
  | pr₀ :: prs, s, hgood, pr, hmem => by
      simp only [List.foldl_cons]
      have hgood' : ∀ q ∈ prs, goodPair q :=
        fun q hq => hgood q (List.mem_cons_of_mem _ hq)
      have hg := hgood pr hmem
      have htok : pr.1.head? = some '<' ∧ '&' ∉ pr.1 := ⟨hg.1, hg.2.1⟩
      rcases List.mem_cons.mp hmem with heq | hmem'
      · subst heq
        exact foldl_preserves_no_occ htok prs _ hgood'
          (step_no_occ htok (hgood pr (List.mem_cons_self _ _)) s (Or.inl rfl))
      · exact foldl_elim_no_occ prs _ hgood' pr hmem'

theorem foldl_id_of_no_occ :
    ∀ (prs : List (List Char × List Char)) (s : List Char),
      (∀ pr ∈ prs, ¬ pr.1 <:+: s) →
      prs.foldl (fun acc q => replaceAll q.1 q.2 acc) s = s
  | [], _, _ => rfl
  | pr :: prs, s, h => by
      simp only [List.foldl_cons]
      rw [replaceAll_id_of_no_occ s (h pr (List.mem_cons_self _ _))]
      exact foldl_id_of_no_occ prs s (fun q hq => h q (List.mem_cons_of_mem _ hq))

theorem process_tags_list_no_occ (x : List Char) :
    ∀ pr ∈ tagPairs, ¬ pr.1 <:+: process_tags_list x :=
  foldl_elim_no_occ tagPairs x tagPairs_good

theorem process_tags_list_idem (x : List Char) :
    process_tags_list (process_tags_list x) = process_tags_list x := by
  show tagPairs.foldl _ (process_tags_list x) = process_tags_list x
  exact foldl_id_of_no_occ tagPairs _ (process_tags_list_no_occ x)

example : process_tags "a <img> b" = "a &lt;img&gt; b" := by decide
example : process_tags "<img>" = "&lt;img&gt;" := by decide
example :
    splitSep "\n\n---\n\n".data "Page1\n\n---\n\nPage2".data =
      ["Page1".data, "Page2".data] := by decide
example : countOcc "---".data "A\n\n---\n\n".data = 1 := by decide
example : hasSub "---".data "A\n\n---\n\n".data = true := by decide
example : countOcc "---".data "----".data = 1 := by decide

/-! ### Driver and orchestrator structure lemmas -/

theorem hasSub_of_countOccFuel_pos {pat : List Char} :
    ∀ (fuel : Nat) (s : List Char), countOccFuel pat fuel s ≠ 0 → hasSub pat s = true
  | 0, _, h => absurd rfl h
  | _ + 1, [], h => absurd rfl h
  | fuel + 1, c :: rest, h => by
      rw [countOccFuel] at h
      by_cases hp : pat.isPrefixOf (c :: rest)
      · rw [hasSub, hp]
        simp
      · rw [if_neg hp] at h
        rw [hasSub, hasSub_of_countOccFuel_pos fuel rest h]
        simp

theorem hasSub_of_countOcc_pos {pat s : List Char} (h : countOcc pat s ≠ 0) :
    hasSub pat s = true :=
  hasSub_of_countOccFuel_pos s.length s h

theorem splitSepFuel_ne_nil (sep : List Char) :
    ∀ (fuel : Nat) (acc s : List Char), splitSepFuel sep fuel acc s ≠ []
  | 0, _, _ => by rw [splitSepFuel]; simp
  | _ + 1, _, [] => by rw [splitSepFuel]; simp
  | fuel + 1, acc, c :: rest => by
      rw [splitSepFuel]
      by_cases hp : sep.isPrefixOf (c :: rest)
      · rw [if_pos hp]
        simp
      · rw [if_neg hp]
        exact splitSepFuel_ne_nil sep fuel (c :: acc) rest

theorem splitSep_ne_nil (sep s : List Char) : splitSep sep s ≠ [] :=
  splitSepFuel_ne_nil sep s.length [] s

/-- Every fragment produced by the driver's chunk loop is a sanitized
content chunk of one of the raw chunks. -/
theorem mem_streamLoop {n : Nat} :
    ∀ (cur : Nat) (chunks : List String) (fr : Fragment),
      fr ∈ streamLoop n cur chunks →
      ∃ raw ∈ chunks, ∃ hd, fr = Fragment.vllmChunk hd (process_tags raw)
  | _, [], _, hfr => absurd hfr (by rw [streamLoop]; simp)
  | cur, chunk :: rest, fr, hfr => by
      rw [streamLoop] at hfr
      simp only [] at hfr
      rcases List.mem_cons.mp hfr with heq | htail
      · refine ⟨chunk, List.mem_cons_self _ _, ?_⟩
        rw [heq]
        by_cases hn : n > 1
        · exact ⟨some (min cur n, n), by rw [if_pos hn]⟩
        · exact ⟨none, by rw [if_neg hn]⟩
      · obtain ⟨raw, hraw, hd, heq⟩ := mem_streamLoop _ rest fr htail
        exact ⟨raw, List.mem_cons_of_mem _ hraw, hd, heq⟩

/-- Every fragment yielded by the Backend B driver is either a sanitized
content chunk of a raw chunk, or the terminal error fragment carrying the
raised message verbatim. -/
theorem mem_stream {cfg : Config} {imgs : List String} {fr : Fragment}
    (h : fr ∈ process_images_to_markdown_stream cfg imgs) :
    (∃ raw ∈ (cfg.vllmStream imgs).1, ∃ hd, fr = Fragment.vllmChunk hd (process_tags raw)) ∨
    (∃ e, (cfg.vllmStream imgs).2 = some e ∧ fr = Fragment.vllmError e) := by
  unfold process_images_to_markdown_stream at h
  simp only [] at h
  rcases List.mem_append.mp h with hin | hin
  · exact Or.inl (mem_streamLoop _ _ fr hin)
  · right
    cases herr : (cfg.vllmStream imgs).2 with
    | none => rw [herr] at hin; simp at hin
    | some e =>
      rw [herr] at hin
      simp only [List.mem_singleton] at hin
      exact ⟨e, rfl, hin⟩

/-- The fallback phase always opens with the VLLM notice fragment. -/
theorem fallbackPhase_head (cfg : Config) (f : String) :
    (fallbackPhase cfg f).1.head? = some (Fragment.vllmNotice f) := by
  unfold fallbackPhase
  cases cfg.rasterizeFile f with
  | error e => rfl
  | ok image_paths =>
    dsimp only
    by_cases hi : image_paths.isEmpty
    · rw [if_pos hi]
      rfl
    · rw [if_neg hi]
      rfl

/-- Shape of the fragments the fallback phase yields. -/
theorem mem_fallbackPhase {cfg : Config} {f : String} {fr : Fragment}
    (h : fr ∈ (fallbackPhase cfg f).1) :
    fr = Fragment.vllmNotice f ∨ fr = Fragment.rasterEmpty f ∨
    (∃ e, fr = Fragment.vllmFallbackError f e) ∨
    (∃ hd c, fr = Fragment.vllmChunk hd c) ∨ (∃ e, fr = Fragment.vllmError e) := by
  unfold fallbackPhase at h
  cases hras : cfg.rasterizeFile f with
  | error e =>
    rw [hras] at h
    simp only [List.mem_cons, List.mem_singleton] at h
    rcases h with h | h | h
    · exact Or.inl h
    · exact Or.inr (Or.inr (Or.inl ⟨e, h⟩))
    · simp at h
  | ok image_paths =>
    rw [hras] at h
    dsimp only at h
    by_cases hi : image_paths.isEmpty
    · rw [if_pos hi] at h
      simp only [List.mem_cons, List.mem_singleton] at h
      rcases h with h | h | h
      · exact Or.inl h
      · exact Or.inr (Or.inl h)
      · simp at h
    · rw [if_neg hi] at h
      rcases List.mem_cons.mp h with heq | htail
      · exact Or.inl heq
      · rcases mem_stream htail with ⟨raw, _, hd, heq⟩ | ⟨e, _, heq⟩
        · exact Or.inr (Or.inr (Or.inr (Or.inl ⟨hd, _, heq⟩)))
        · exact Or.inr (Or.inr (Or.inr (Or.inr ⟨e, heq⟩)))

/-- Shape of the fragments the Mistral phase yields. -/
theorem mem_mistralPhase {cfg : Config} {hc : Bool} {f : String} {fr : Fragment}
    (h : fr ∈ (mistralPhase cfg hc f).1) :
    fr = Fragment.mistralAttempt f ∨
    (∃ p t c, fr = Fragment.mistralPage f p t c) ∨
    (∃ e, fr = Fragment.mistralError f e) := by
  unfold mistralPhase at h
  by_cases hhc : hc
  · rw [if_pos hhc] at h
    cases hocr : cfg.mistralOCR f with
    | ok md =>
      rw [hocr] at h
      simp only [] at h
      rcases List.mem_cons.mp h with heq | htail
      · exact Or.inl heq
      · obtain ⟨ip, _, heq⟩ := List.mem_map.mp htail
        exact Or.inr (Or.inl ⟨ip.1 + 1, _, _, heq.symm⟩)
    | error e =>
      rw [hocr] at h
      simp only [List.mem_cons, List.mem_singleton] at h
      rcases h with h | h | h
      · exact Or.inl h
      · exact Or.inr (Or.inr ⟨e, h⟩)
      · simp at h
  · rw [if_neg hhc] at h
    simp at h

/-- Shape of the pre-loop fragments. -/
theorem mem_initFragments {cfg : Config} {fr : Fragment}
    (h : fr ∈ initFragments cfg) : ∃ e, fr = Fragment.initWarning e := by
  unfold initFragments at h
  by_cases hk : cfg.mistralKeySet
  · rw [if_pos hk] at h
    cases hinit : cfg.clientInit with
    | ok u => rw [hinit] at h; simp at h
    | error e =>
      rw [hinit] at h
      simp only [List.mem_singleton] at h
      exact ⟨e, h⟩
  · rw [if_neg hk] at h
    simp at h

theorem completedFile_eq_none {fr : Fragment} (h : fr.isFileComplete = false) :
    fr.completedFile = none := by
  cases fr <;> simp_all [Fragment.isFileComplete, Fragment.completedFile]

theorem fallback_frag_flags {cfg : Config} {f : String} {fr : Fragment}
    (h : fr ∈ (fallbackPhase cfg f).1) :
    fr.isInitWarning = false ∧ fr.isMistralFrag = false ∧ fr.isFileComplete = false ∧
    fr.isMistralContent = false := by
  rcases mem_fallbackPhase h with rfl | rfl | ⟨e, rfl⟩ | ⟨hd, c, rfl⟩ | ⟨e, rfl⟩ <;>
    exact ⟨rfl, rfl, rfl, rfl⟩

theorem mistral_frag_flags {cfg : Config} {hc : Bool} {f : String} {fr : Fragment}
    (h : fr ∈ (mistralPhase cfg hc f).1) :
    fr.isInitWarning = false ∧ fr.isFileComplete = false ∧ fr.isErrorFrag = false ∧
    fr.isVllmDriverFrag = false ∧ fr.isVllmContent = false := by
  rcases mem_mistralPhase h with rfl | ⟨p, t, c, rfl⟩ | ⟨e, rfl⟩ <;>
    exact ⟨rfl, rfl, rfl, rfl, rfl⟩

theorem processFile_eq (cfg : Config) (hc : Bool) (f : String) :
    processFile cfg hc f =
      if (mistralPhase cfg hc f).2 then
        (mistralPhase cfg hc f).1 ++ (fallbackPhase cfg f).1 ++
          (if (fallbackPhase cfg f).2 then [Fragment.fileComplete f] else [])
      else (mistralPhase cfg hc f).1 ++ [Fragment.fileComplete f] := rfl

theorem processFile_completed (cfg : Config) (hc : Bool) (f : String) :
    (processFile cfg hc f).filterMap Fragment.completedFile =
      if completesFile cfg hc f then [f] else [] := by
  have hmp : (mistralPhase cfg hc f).1.filterMap Fragment.completedFile = [] := by
    rw [List.filterMap_eq_nil_iff]
    intro fr hfr
    exact completedFile_eq_none (mistral_frag_flags hfr).2.1
  have hfp : (fallbackPhase cfg f).1.filterMap Fragment.completedFile = [] := by
    rw [List.filterMap_eq_nil_iff]
    intro fr hfr
    exact completedFile_eq_none (fallback_frag_flags hfr).2.2.1
  rw [processFile_eq]
  simp only [completesFile]
  by_cases hm : (mistralPhase cfg hc f).2
  · by_cases hf : (fallbackPhase cfg f).2
    · simp [hm, hf, List.filterMap_append, hmp, hfp, Fragment.completedFile]
    · simp [hm, hf, List.filterMap_append, hmp, hfp]
  · simp [hm, List.filterMap_append, hmp, Fragment.completedFile]

theorem flatMap_completed (cfg : Config) (hc : Bool) :
    ∀ fs : List String,
      (fs.flatMap (processFile cfg hc)).filterMap Fragment.completedFile =
        fs.filter (completesFile cfg hc)
  | [] => rfl
  | f :: fs => by
      rw [List.flatMap_cons, List.filterMap_append, processFile_completed,
        flatMap_completed cfg hc fs, List.filter_cons]
      by_cases hcf : completesFile cfg hc f
      · rw [if_pos hcf, if_pos hcf]
        rfl
      · rw [if_neg hcf, if_neg hcf]
        rfl

theorem run_eq (cfg : Config) (files : List String) (h : files ≠ []) :
    process_uploaded_files_to_markdown cfg (some files) =
      initFragments cfg ++ files.flatMap (processFile cfg (hasClient cfg)) := by
  unfold process_uploaded_files_to_markdown
  have hne : files.isEmpty = false := by
    cases files with
    | nil => exact absurd rfl h
    | cons a l => rfl
  simp only [Option.getD_some]
  rw [hne]
  simp

theorem run_decomp (cfg : Config) (fs₁ : List String) (f : String) (fs₂ : List String) :
    process_uploaded_files_to_markdown cfg (some (fs₁ ++ f :: fs₂)) =
      initFragments cfg ++ fs₁.flatMap (processFile cfg (hasClient cfg))
        ++ processFile cfg (hasClient cfg) f
        ++ fs₂.flatMap (processFile cfg (hasClient cfg)) := by
  rw [run_eq cfg _ (by simp), List.flatMap_append, List.flatMap_cons]
  simp [List.append_assoc]

/-! ### Phase computation lemmas -/

theorem mistralPages_ne_nil (md : String) : mistralPages md ≠ [] := by
  unfold mistralPages
  rw [Ne, List.map_eq_nil_iff]
  exact splitSep_ne_nil _ _

theorem mistralPhase_ok {cfg : Config} {f md : String} (hok : cfg.mistralOCR f = .ok md) :
    mistralPhase cfg true f =
      (Fragment.mistralAttempt f ::
        (mistralPages md).enum.map (fun ip =>
          Fragment.mistralPage f (ip.1 + 1) (mistralPages md).length (process_tags ip.2)),
       false) := by
  unfold mistralPhase
  rw [hok]
  rfl

theorem mistralPhase_err {cfg : Config} {f e : String}
    (he : cfg.mistralOCR f = .error e) :
    mistralPhase cfg true f =
      ([Fragment.mistralAttempt f, Fragment.mistralError f e], true) := by
  unfold mistralPhase
  rw [he]
  rfl

theorem mistralPhase_cases (cfg : Config) (hc : Bool) (f : String) :
    (∃ md, hc = true ∧ cfg.mistralOCR f = .ok md ∧
        mistralPhase cfg hc f =
          (Fragment.mistralAttempt f ::
            (mistralPages md).enum.map (fun ip =>
              Fragment.mistralPage f (ip.1 + 1) (mistralPages md).length (process_tags ip.2)),
           false)) ∨
    ((mistralPhase cfg hc f).2 = true ∧
        ((mistralPhase cfg hc f).1 = [] ∨
         ∃ e, mistralPhase cfg hc f =
           ([Fragment.mistralAttempt f, Fragment.mistralError f e], true))) := by
  cases hc with
  | false => exact Or.inr ⟨rfl, Or.inl rfl⟩
  | true =>
    cases hocr : cfg.mistralOCR f with
    | ok md => exact Or.inl ⟨md, rfl, rfl, mistralPhase_ok hocr⟩
    | error e =>
      refine Or.inr ⟨?_, Or.inr ⟨e, mistralPhase_err hocr⟩⟩
      rw [mistralPhase_err hocr]

theorem fallbackPhase_rasterErr {cfg : Config} {f e : String}
    (h : cfg.rasterizeFile f = .error e) :
    fallbackPhase cfg f = ([Fragment.vllmNotice f, Fragment.vllmFallbackError f e], true) := by
  unfold fallbackPhase
  rw [h]

theorem fallbackPhase_rasterNil {cfg : Config} {f : String}
    (h : cfg.rasterizeFile f = .ok []) :
    fallbackPhase cfg f = ([Fragment.vllmNotice f, Fragment.rasterEmpty f], false) := by
  unfold fallbackPhase
  rw [h]
  rfl

theorem fallbackPhase_rasterOk {cfg : Config} {f : String} {imgs : List String}
    (h : cfg.rasterizeFile f = .ok imgs) (hne : imgs.isEmpty = false) :
    fallbackPhase cfg f =
      (Fragment.vllmNotice f :: process_images_to_markdown_stream cfg imgs, true) := by
  unfold fallbackPhase
  rw [h]
  dsimp only
  rw [hne]
  simp

theorem stream_eq (cfg : Config) (imgs : List String) (h : imgs.isEmpty = false) :
    process_images_to_markdown_stream cfg imgs =
      streamLoop imgs.length 1 (cfg.vllmStream imgs).1 ++
        (match (cfg.vllmStream imgs).2 with
         | some e => [Fragment.vllmError e]
         | none => []) := by
  unfold process_images_to_markdown_stream
  rw [h]
  simp

theorem streamLoop_ne_nil {n cur : Nat} {chunks : List String} (h : chunks ≠ []) :
    streamLoop n cur chunks ≠ [] := by
  cases chunks with
  | nil => exact absurd rfl h
  | cons c rest =>
    rw [streamLoop]
    simp

theorem streamLoop_no_header {n : Nat} (hn : ¬ n > 1) :
    ∀ (cur : Nat) (chunks : List String) (fr : Fragment),
      fr ∈ streamLoop n cur chunks → Fragment.headerOf fr = none
  | _, [], fr, hfr => absurd hfr (by rw [streamLoop]; simp)
  | cur, chunk :: rest, fr, hfr => by
      rw [streamLoop] at hfr
      simp only [] at hfr
      rw [if_neg hn] at hfr
      rcases List.mem_cons.mp hfr with rfl | h
      · rfl
      · exact streamLoop_no_header hn _ rest fr h

/-- When the page count is at least two and every chunk contains exactly one
delimiter occurrence, the loop started at page 2 stays at page 2 forever. -/
theorem streamLoop_headers_two {n : Nat} (hn : 2 ≤ n) :
    ∀ cs : List String, (∀ x ∈ cs, countOcc "---".data x.data = 1) →
      (streamLoop n 2 cs).map Fragment.headerOf =
        List.replicate cs.length (some (2, n))
  | [], _ => rfl
  | c :: cs, hall => by
      have hc1 : countOcc "---".data c.data = 1 := hall c (List.mem_cons_self _ _)
      have hsub : hasSub "---".data c.data = true :=
        hasSub_of_countOcc_pos (by rw [hc1]; simp)
      have hn1 : n > 1 := hn
      rw [streamLoop]
      simp only []
      rw [if_pos hn1, hsub, hc1]
      simp only [if_true, List.map_cons, List.length_cons, List.replicate_succ]
      congr 1
      · simp [Fragment.headerOf, Nat.min_eq_left hn]
      · exact streamLoop_headers_two hn cs (fun x hx => hall x (List.mem_cons_of_mem _ hx))

/-! ### Claims -/

/-- C2: for every input string, the Tag Sanitizer is idempotent
(`sanitize (sanitize x) = sanitize x`) and its output contains no literal
occurrence of any of the eight raw tokens. -/
theorem claim_C2 (x : String) :
    process_tags (process_tags x) = process_tags x ∧
    ∀ t ∈ rawTags, ¬ t.data <:+: (process_tags x).data := by
  have hdm : ∀ l : List Char, (String.mk l).data = l := fun _ => rfl
  constructor
  · unfold process_tags
    rw [hdm, process_tags_list_idem]
  · intro t ht
    have hdata : (process_tags x).data = process_tags_list x.data := by
      unfold process_tags
      exact hdm _
    rw [hdata]
    have hmaps : rawTags.map String.data = tagPairs.map Prod.fst := by decide
    have h2 : t.data ∈ tagPairs.map Prod.fst := by
      rw [← hmaps]
      exact List.mem_map_of_mem String.data ht
    obtain ⟨pr, hpr, heq⟩ := List.mem_map.mp h2
    rw [← heq]
    exact process_tags_list_no_occ x.data pr hpr

theorem claim_C2_witness :
    process_tags (process_tags "a<img>b") = process_tags "a<img>b" ∧
    ¬ "<img>".data <:+: (process_tags "a<img>b").data :=
  ⟨(claim_C2 "a<img>b").1, (claim_C2 "a<img>b").2 "<img>" (by decide)⟩

/-- C10: an absent or empty file list makes the orchestrator yield exactly
the single no-files fragment and stop, for every configuration — in
particular no client-construction warning, no backend fragment and no
rasterization fragment can appear. -/
theorem claim_C10 (cfg : Config) :
    process_uploaded_files_to_markdown cfg none = [Fragment.noFiles] ∧
    process_uploaded_files_to_markdown cfg (some []) = [Fragment.noFiles] :=
  ⟨rfl, rfl⟩

/-- C1 counterexample: a one-file batch whose fallback rasterization yields
no pages produces zero file-complete fragments (the `continue` at line 195
skips the completion yield at line 206), so the count does not equal the
number of input files. -/
theorem claim_C1_counterexample :
    ((process_uploaded_files_to_markdown cfgEmptyRaster (some ["a"])).filterMap
        Fragment.completedFile).length = 0 ∧
    ¬ ((process_uploaded_files_to_markdown cfgEmptyRaster (some ["a"])).filterMap
        Fragment.completedFile).length = (["a"] : List String).length := by
  decide

/-- C1 amended: the file-complete fragments of a run list, in input order,
exactly those input files whose processing reaches the completion yield —
all files except those routed to fallback whose rasterization yields no
pages (for which an error fragment is emitted and the completion fragment
is skipped). -/
theorem claim_C1 (cfg : Config) (files : List String) :
    (process_uploaded_files_to_markdown cfg (some files)).filterMap
        Fragment.completedFile =
      files.filter (completesFile cfg (hasClient cfg)) := by
  cases files with
  | nil => rfl
  | cons f fs =>
    rw [run_eq cfg (f :: fs) (by simp), List.filterMap_append]
    have hinit : (initFragments cfg).filterMap Fragment.completedFile = [] := by
      rw [List.filterMap_eq_nil_iff]
      intro fr hfr
      obtain ⟨e, rfl⟩ := mem_initFragments hfr
      rfl
    rw [hinit, flatMap_completed]
    rfl

/-- C3: if a file is routed to the fallback path and its rasterization
yields no pages, the orchestrator emits the VLLM notice and exactly one
error fragment for that file, never invokes the Backend B driver for it,
and still processes every other file of the batch. -/
theorem claim_C3 (cfg : Config) (f : String) (fs₁ fs₂ : List String)
    (hfb : (mistralPhase cfg (hasClient cfg) f).2 = true)
    (hras : cfg.rasterizeFile f = .ok []) :
    processFile cfg (hasClient cfg) f =
      (mistralPhase cfg (hasClient cfg) f).1 ++
        [Fragment.vllmNotice f, Fragment.rasterEmpty f] ∧
    (processFile cfg (hasClient cfg) f).filter Fragment.isErrorFrag =
      [Fragment.rasterEmpty f] ∧
    (processFile cfg (hasClient cfg) f).filter Fragment.isVllmDriverFrag = [] ∧
    process_uploaded_files_to_markdown cfg (some (fs₁ ++ f :: fs₂)) =
      initFragments cfg ++ fs₁.flatMap (processFile cfg (hasClient cfg))
        ++ processFile cfg (hasClient cfg) f
        ++ fs₂.flatMap (processFile cfg (hasClient cfg)) := by
  have hfp := fallbackPhase_rasterNil hras
  have hpf : processFile cfg (hasClient cfg) f =
      (mistralPhase cfg (hasClient cfg) f).1 ++
        [Fragment.vllmNotice f, Fragment.rasterEmpty f] := by
    rw [processFile_eq]
    simp [hfb, hfp]
  refine ⟨hpf, ?_, ?_, run_decomp cfg fs₁ f fs₂⟩
  · rw [hpf, List.filter_append]
    have h1 : (mistralPhase cfg (hasClient cfg) f).1.filter Fragment.isErrorFrag = [] := by
      rw [List.filter_eq_nil_iff]
      intro fr hfr
      rw [(mistral_frag_flags hfr).2.2.1]
      simp
    rw [h1]
    rfl
  · rw [hpf, List.filter_append]
    have h1 : (mistralPhase cfg (hasClient cfg) f).1.filter Fragment.isVllmDriverFrag = [] := by
      rw [List.filter_eq_nil_iff]
      intro fr hfr
      rw [(mistral_frag_flags hfr).2.2.2.1]
      simp
    rw [h1]
    rfl

theorem claim_C3_witness :
    (mistralPhase cfgEmptyRaster (hasClient cfgEmptyRaster) "a").2 = true ∧
    cfgEmptyRaster.rasterizeFile "a" = .ok [] ∧
    (processFile cfgEmptyRaster (hasClient cfgEmptyRaster) "a").filter
        Fragment.isErrorFrag = [Fragment.rasterEmpty "a"] :=
  ⟨by decide, rfl, (claim_C3 cfgEmptyRaster "a" [] [] (by decide) rfl).2.1⟩

/-- C4 counterexample: a three-page input whose chunks each contain exactly
one page-delimiter occurrence is headed "page 1 of 3", "page 2 of 3",
"page 2 of 3" — not "page 3 of 3" on the third chunk, because line 126
recomputes `current_page` from the delimiter count of the current chunk
alone rather than accumulating. -/
theorem claim_C4_counterexample :
    (∀ c ∈ (cfgThreePages.vllmStream ["p1", "p2", "p3"]).1,
        countOcc "---".data c.data = 1) ∧
    (process_images_to_markdown_stream cfgThreePages ["p1", "p2", "p3"]).map
        Fragment.headerOf = [some (1, 3), some (2, 3), some (2, 3)] ∧
    (process_images_to_markdown_stream cfgThreePages ["p1", "p2", "p3"]).map
        Fragment.headerOf ≠ [some (1, 3), some (2, 3), some (3, 3)] := by
  decide

/-- C4 amended: when each chunk contains exactly one page-delimiter
occurrence and the routine does not raise, a multi-page input is headed
"page 1 of n" on the first chunk and "page 2 of n" on every later chunk
(line 126 sets `current_page` to the current chunk's delimiter count plus
one, which is 2 here, not to a running page index); a single-page input
gets no header on any fragment. -/
theorem claim_C4 :
    (∀ (cfg : Config) (imgs : List String) (c : String) (cs : List String),
        1 < imgs.length →
        cfg.vllmStream imgs = (c :: cs, none) →
        (∀ x ∈ c :: cs, countOcc "---".data x.data = 1) →
        (process_images_to_markdown_stream cfg imgs).map Fragment.headerOf =
          some (1, imgs.length) :: List.replicate cs.length (some (2, imgs.length))) ∧
    (∀ (cfg : Config) (imgs : List String), imgs.length = 1 →
        ∀ fr ∈ process_images_to_markdown_stream cfg imgs,
          Fragment.headerOf fr = none) := by
  constructor
  · intro cfg imgs c cs hn hstream hall
    have hne : imgs.isEmpty = false := by
      cases imgs with
      | nil => simp at hn
      | cons a l => rfl
    rw [stream_eq cfg imgs hne, hstream]
    dsimp only
    rw [List.append_nil]
    have hc1 := hall c (List.mem_cons_self _ _)
    have hsub : hasSub "---".data c.data = true :=
      hasSub_of_countOcc_pos (by rw [hc1]; simp)
    have hn' : imgs.length > 1 := hn
    rw [streamLoop]
    simp only []
    rw [if_pos hn', hsub, hc1]
    simp only [if_true, List.map_cons]
    congr 1
    · simp [Fragment.headerOf, Nat.min_eq_left (Nat.le_of_lt hn')]
    · exact streamLoop_headers_two hn' cs (fun x hx => hall x (List.mem_cons_of_mem _ hx))
  · intro cfg imgs hlen fr hfr
    have hne : imgs.isEmpty = false := by
      cases imgs with
      | nil => simp at hlen
      | cons a l => rfl
    rw [stream_eq cfg imgs hne] at hfr
    rcases List.mem_append.mp hfr with h | h
    · exact streamLoop_no_header (by rw [hlen]; simp) _ _ fr h
    · cases herr : (cfg.vllmStream imgs).2 with
      | none => rw [herr] at h; simp at h
      | some e =>
        rw [herr] at h
        rw [List.mem_singleton] at h
        subst h
        rfl

theorem claim_C4_witness :
    (process_images_to_markdown_stream cfgThreePages ["p1", "p2", "p3"]).map
        Fragment.headerOf =
      some (1, 3) :: List.replicate 2 (some (2, 3)) :=
  claim_C4.1 cfgThreePages ["p1", "p2", "p3"] "A\n\n---\n\n"
    ["B\n\n---\n\n", "C\n\n---\n\n"] (by decide) rfl (by decide)

/-- C5: if Backend A raises for a file, the orchestrator emits the attempt
fragment then the Mistral warning/error fragment for that file, follows
with the fallback phase (which always opens with the VLLM notice), and the
remaining files of the batch are still processed. -/
theorem claim_C5 (cfg : Config) (f e : String) (fs₁ fs₂ : List String)
    (hc : hasClient cfg = true) (he : cfg.mistralOCR f = .error e) :
    processFile cfg (hasClient cfg) f =
      Fragment.mistralAttempt f :: Fragment.mistralError f e ::
        ((fallbackPhase cfg f).1 ++
          (if (fallbackPhase cfg f).2 then [Fragment.fileComplete f] else [])) ∧
    (fallbackPhase cfg f).1.head? = some (Fragment.vllmNotice f) ∧
    process_uploaded_files_to_markdown cfg (some (fs₁ ++ f :: fs₂)) =
      initFragments cfg ++ fs₁.flatMap (processFile cfg (hasClient cfg))
        ++ processFile cfg (hasClient cfg) f
        ++ fs₂.flatMap (processFile cfg (hasClient cfg)) := by
  have hmp : mistralPhase cfg (hasClient cfg) f =
      ([Fragment.mistralAttempt f, Fragment.mistralError f e], true) := by
    rw [hc]
    exact mistralPhase_err he
  refine ⟨?_, fallbackPhase_head cfg f, run_decomp cfg fs₁ f fs₂⟩
  rw [processFile_eq, hmp]
  rfl

theorem claim_C5_witness :
    hasClient cfgMistralFails = true ∧
    cfgMistralFails.mistralOCR "a" = .error "boom" ∧
    (fallbackPhase cfgMistralFails "a").1.head? = some (Fragment.vllmNotice "a") :=
  ⟨rfl, rfl, (claim_C5 cfgMistralFails "a" "boom" [] [] rfl rfl).2.1⟩

/-- C6: if the credential is set but client construction raises, the run
emits exactly one run-level warning fragment, then processes every file
with the client treated as absent — no secondary-backend fragment of any
kind appears in the whole run. -/
theorem claim_C6 (cfg : Config) (e : String) (files : List String)
    (hk : cfg.mistralKeySet = true) (hinit : cfg.clientInit = .error e)
    (hne : files ≠ []) :
    process_uploaded_files_to_markdown cfg (some files) =
      Fragment.initWarning e :: files.flatMap (processFile cfg false) ∧
    (process_uploaded_files_to_markdown cfg (some files)).filter
        Fragment.isInitWarning = [Fragment.initWarning e] ∧
    ∀ fr ∈ process_uploaded_files_to_markdown cfg (some files),
      Fragment.isMistralFrag fr = false := by
  have hhc : hasClient cfg = false := by
    unfold hasClient
    rw [hk, hinit]
    rfl
  have hif : initFragments cfg = [Fragment.initWarning e] := by
    unfold initFragments
    rw [if_pos hk, hinit]
  have hrun : process_uploaded_files_to_markdown cfg (some files) =
      Fragment.initWarning e :: files.flatMap (processFile cfg false) := by
    rw [run_eq cfg files hne, hif, hhc]
    rfl
  have hmemflat : ∀ fr ∈ files.flatMap (processFile cfg false),
      Fragment.isInitWarning fr = false ∧ Fragment.isMistralFrag fr = false := by
    intro fr hfr
    obtain ⟨f, _, hmem⟩ := List.mem_flatMap.mp hfr
    rw [processFile_eq] at hmem
    have hmp : mistralPhase cfg false f = ([], true) := rfl
    rw [hmp] at hmem
    dsimp only at hmem
    rw [List.nil_append] at hmem
    rcases List.mem_append.mp hmem with h1 | h2
    · have hfl := fallback_frag_flags h1
      exact ⟨hfl.1, hfl.2.1⟩
    · by_cases hf2 : (fallbackPhase cfg f).2
      · rw [if_pos hf2, List.mem_singleton] at h2
        subst h2
        exact ⟨rfl, rfl⟩
      · rw [if_neg hf2] at h2
        simp at h2
  refine ⟨hrun, ?_, ?_⟩
  · rw [hrun, List.filter_cons]
    have htail : (files.flatMap (processFile cfg false)).filter
        Fragment.isInitWarning = [] := by
      rw [List.filter_eq_nil_iff]
      intro fr hfr
      rw [(hmemflat fr hfr).1]
      simp
    rw [htail]
    rfl
  · intro fr hfr
    rw [hrun] at hfr
    rcases List.mem_cons.mp hfr with rfl | h
    · rfl
    · exact (hmemflat fr h).2

theorem claim_C6_witness :
    cfgInitFails.mistralKeySet = true ∧
    cfgInitFails.clientInit = .error "noauth" ∧
    (process_uploaded_files_to_markdown cfgInitFails (some ["a"])).filter
        Fragment.isInitWarning = [Fragment.initWarning "noauth"] :=
  ⟨rfl, rfl, (claim_C6 cfgInitFails "noauth" ["a"] rfl rfl (by decide)).2.1⟩

/-- C7: when Backend A succeeds for a file, the returned text is split on
the fixed separator and each page is emitted as its own fragment with the
sanitizer applied to its content individually (the page header and
trailing separator being attached exactly when the file has more than one
page), followed by the file-complete fragment.  Concretely, a return of
"Page1\n\n---\n\nPage2" yields the two pages as "Page 1 of 2" and
"Page 2 of 2" fragments followed by one file-complete fragment. -/
theorem claim_C7 (cfg : Config) (f md : String)
    (hc : hasClient cfg = true) (hok : cfg.mistralOCR f = .ok md) :
    processFile cfg (hasClient cfg) f =
      Fragment.mistralAttempt f ::
        ((mistralPages md).enum.map (fun ip =>
            Fragment.mistralPage f (ip.1 + 1) (mistralPages md).length
              (process_tags ip.2))
          ++ [Fragment.fileComplete f]) ∧
    mistralPages "Page1\n\n---\n\nPage2" = ["Page1", "Page2"] ∧
    processFile cfgMistralTwoPages (hasClient cfgMistralTwoPages) "doc.pdf" =
      [Fragment.mistralAttempt "doc.pdf",
       Fragment.mistralPage "doc.pdf" 1 2 (process_tags "Page1"),
       Fragment.mistralPage "doc.pdf" 2 2 (process_tags "Page2"),
       Fragment.fileComplete "doc.pdf"] := by
  refine ⟨?_, by decide, by decide⟩
  have hmp := mistralPhase_ok hok
  rw [processFile_eq, hc, hmp]
  rfl

theorem claim_C7_witness :
    hasClient cfgMistralTwoPages = true ∧
    cfgMistralTwoPages.mistralOCR "doc.pdf" = .ok "Page1\n\n---\n\nPage2" ∧
    processFile cfgMistralTwoPages (hasClient cfgMistralTwoPages) "doc.pdf" =
      Fragment.mistralAttempt "doc.pdf" ::
        ((mistralPages "Page1\n\n---\n\nPage2").enum.map (fun ip =>
            Fragment.mistralPage "doc.pdf" (ip.1 + 1)
              (mistralPages "Page1\n\n---\n\nPage2").length (process_tags ip.2))
          ++ [Fragment.fileComplete "doc.pdf"]) :=
  ⟨rfl, rfl, (claim_C7 cfgMistralTwoPages "doc.pdf" "Page1\n\n---\n\nPage2" rfl rfl).1⟩

/-- C8: for every file, page content from at most one backend appears among
its fragments, and if neither backend contributed page content then a
terminal error fragment stands in for the missing output.  The second part
relies on the spec-modelled contract `streamProduces` of the external
conversion routine (one chunk per page when it does not raise). -/
theorem claim_C8 (cfg : Config) (f : String) (hsp : streamProduces cfg) :
    ((processFile cfg (hasClient cfg) f).filter Fragment.isMistralContent = [] ∨
     (processFile cfg (hasClient cfg) f).filter Fragment.isVllmContent = []) ∧
    ((processFile cfg (hasClient cfg) f).filter Fragment.isMistralContent = [] →
     (processFile cfg (hasClient cfg) f).filter Fragment.isVllmContent = [] →
     (processFile cfg (hasClient cfg) f).filter Fragment.isErrorFrag ≠ []) := by
  rcases mistralPhase_cases cfg (hasClient cfg) f with ⟨md, _, _, hmp⟩ | ⟨hm2, hmp1⟩
  · have hpf : processFile cfg (hasClient cfg) f =
        (mistralPhase cfg (hasClient cfg) f).1 ++ [Fragment.fileComplete f] := by
      rw [processFile_eq, hmp]
      rfl
    have hvllm : (processFile cfg (hasClient cfg) f).filter Fragment.isVllmContent = [] := by
      rw [hpf, List.filter_append]
      have h1 : (mistralPhase cfg (hasClient cfg) f).1.filter Fragment.isVllmContent = [] := by
        rw [List.filter_eq_nil_iff]
        intro fr hfr
        rw [(mistral_frag_flags hfr).2.2.2.2]
        simp
      rw [h1]
      rfl
    refine ⟨Or.inr hvllm, fun hmc _ => ?_⟩
    exfalso
    obtain ⟨p, ps, hpp⟩ := List.exists_cons_of_ne_nil (mistralPages_ne_nil md)
    have hmem1 : Fragment.mistralPage f 1 (mistralPages md).length (process_tags p) ∈
        (mistralPhase cfg (hasClient cfg) f).1 := by
      rw [hmp]
      dsimp only
      apply List.mem_cons_of_mem
      rw [hpp, List.enum_cons, List.map_cons]
      exact List.mem_cons_self _ _
    have hmemPF : Fragment.mistralPage f 1 (mistralPages md).length (process_tags p) ∈
        processFile cfg (hasClient cfg) f := by
      rw [hpf]
      exact List.mem_append.mpr (Or.inl hmem1)
    have hmemF : Fragment.mistralPage f 1 (mistralPages md).length (process_tags p) ∈
        (processFile cfg (hasClient cfg) f).filter Fragment.isMistralContent :=
      List.mem_filter.mpr ⟨hmemPF, rfl⟩
    rw [hmc] at hmemF
    simp at hmemF
  · have hpf : processFile cfg (hasClient cfg) f =
        (mistralPhase cfg (hasClient cfg) f).1 ++ (fallbackPhase cfg f).1 ++
          (if (fallbackPhase cfg f).2 then [Fragment.fileComplete f] else []) := by
      rw [processFile_eq, if_pos hm2]
    have h1 : (mistralPhase cfg (hasClient cfg) f).1.filter Fragment.isMistralContent = [] := by
      rcases hmp1 with hnil | ⟨e, hpe⟩
      · rw [hnil]
        rfl
      · rw [hpe]
        rfl
    have h2 : (fallbackPhase cfg f).1.filter Fragment.isMistralContent = [] := by
      rw [List.filter_eq_nil_iff]
      intro fr hfr
      rw [(fallback_frag_flags hfr).2.2.2]
      simp
    have h3 : (if (fallbackPhase cfg f).2 then [Fragment.fileComplete f] else []).filter
        Fragment.isMistralContent = [] := by
      by_cases hf2 : (fallbackPhase cfg f).2
      · rw [if_pos hf2]
        rfl
      · rw [if_neg hf2]
        rfl
    have hmc : (processFile cfg (hasClient cfg) f).filter Fragment.isMistralContent = [] := by
      rw [hpf, List.filter_append, List.filter_append, h1, h2, h3]
      rfl
    refine ⟨Or.inl hmc, fun _ hvc => ?_⟩
    cases hras : cfg.rasterizeFile f with
    | error e =>
      have hfp := fallbackPhase_rasterErr hras
      intro hcontra
      have hmemE : Fragment.vllmFallbackError f e ∈ processFile cfg (hasClient cfg) f := by
        rw [hpf, hfp]
        exact List.mem_append.mpr (Or.inl (List.mem_append.mpr (Or.inr (by simp))))
      have hmemF : Fragment.vllmFallbackError f e ∈
          (processFile cfg (hasClient cfg) f).filter Fragment.isErrorFrag :=
        List.mem_filter.mpr ⟨hmemE, rfl⟩
      rw [hcontra] at hmemF
      simp at hmemF
    | ok imgs =>
      by_cases hie : imgs.isEmpty
      · have himgs : imgs = [] := List.isEmpty_iff.mp hie
        subst himgs
        have hfp := fallbackPhase_rasterNil hras
        intro hcontra
        have hmemE : Fragment.rasterEmpty f ∈ processFile cfg (hasClient cfg) f := by
          rw [hpf, hfp]
          exact List.mem_append.mpr (Or.inl (List.mem_append.mpr (Or.inr (by simp))))
        have hmemF : Fragment.rasterEmpty f ∈
            (processFile cfg (hasClient cfg) f).filter Fragment.isErrorFrag :=
          List.mem_filter.mpr ⟨hmemE, rfl⟩
        rw [hcontra] at hmemF
        simp at hmemF
      · have hie' : imgs.isEmpty = false := by
          rwa [Bool.not_eq_true] at hie
        have hfp := fallbackPhase_rasterOk hras hie'
        cases herr : (cfg.vllmStream imgs).2 with
        | some e =>
          intro hcontra
          have hmemS : Fragment.vllmError e ∈ process_images_to_markdown_stream cfg imgs := by
            rw [stream_eq cfg imgs hie', herr]
            exact List.mem_append.mpr (Or.inr (by simp))
          have hmemE : Fragment.vllmError e ∈ processFile cfg (hasClient cfg) f := by
            rw [hpf, hfp]
            exact List.mem_append.mpr
              (Or.inl (List.mem_append.mpr (Or.inr (List.mem_cons_of_mem _ hmemS))))
          have hmemF : Fragment.vllmError e ∈
              (processFile cfg (hasClient cfg) f).filter Fragment.isErrorFrag :=
            List.mem_filter.mpr ⟨hmemE, rfl⟩
          rw [hcontra] at hmemF
          simp at hmemF
        | none =>
          exfalso
          have hlen := hsp imgs herr
          have himgsne : imgs ≠ [] := by
            intro hcon
            rw [hcon] at hie'
            simp at hie'
          have hchne : (cfg.vllmStream imgs).1 ≠ [] := by
            intro hcon
            rw [hcon] at hlen
            cases imgs with
            | nil => exact himgsne rfl
            | cons a l => simp at hlen
          obtain ⟨x, hx⟩ :=
            List.exists_mem_of_ne_nil _
              (@streamLoop_ne_nil imgs.length 1 (cfg.vllmStream imgs).1 hchne)
          obtain ⟨raw, hraw, hd, rfl⟩ := mem_streamLoop _ _ x hx
          have hmemX : Fragment.vllmChunk hd (process_tags raw) ∈
              processFile cfg (hasClient cfg) f := by
            rw [hpf, hfp]
            refine List.mem_append.mpr (Or.inl (List.mem_append.mpr (Or.inr ?_)))
            refine List.mem_cons_of_mem _ ?_
            rw [stream_eq cfg imgs hie']
            exact List.mem_append.mpr (Or.inl hx)
          have hmemF : Fragment.vllmChunk hd (process_tags raw) ∈
              (processFile cfg (hasClient cfg) f).filter Fragment.isVllmContent :=
            List.mem_filter.mpr ⟨hmemX, rfl⟩
          rw [hvc] at hmemF
          simp at hmemF

theorem claim_C8_witness :
    streamProduces cfgPerPage ∧
    ((processFile cfgPerPage (hasClient cfgPerPage) "a").filter
        Fragment.isMistralContent = [] ∨
     (processFile cfgPerPage (hasClient cfgPerPage) "a").filter
        Fragment.isVllmContent = []) :=
  ⟨fun imgs _ => by simp [cfgPerPage],
   (claim_C8 cfgPerPage "a" (fun imgs _ => by simp [cfgPerPage])).1⟩

/-- C9 counterexample: when the conversion routine raises with a message
containing a raw token, the driver's single terminal error fragment
carries that message verbatim — it is not passed through the Sanitizer
(which would have escaped it). -/
theorem claim_C9_counterexample :
    process_images_to_markdown_stream cfgRaisingStream ["p1"] =
      [Fragment.vllmError "<img>"] ∧
    process_tags "<img>" ≠ "<img>" := by
  decide

/-- C9 amended: every content chunk the driver yields has its page content
passed through the Sanitizer, but the terminal error fragment yielded on a
mid-stream exception carries the exception message verbatim, unsanitized. -/
theorem claim_C9 (cfg : Config) (imgs : List String) (fr : Fragment)
    (hfr : fr ∈ process_images_to_markdown_stream cfg imgs) :
    (∀ hd c, fr = Fragment.vllmChunk hd c →
        ∃ raw ∈ (cfg.vllmStream imgs).1, c = process_tags raw) ∧
    (∀ e, fr = Fragment.vllmError e → (cfg.vllmStream imgs).2 = some e) := by
  rcases mem_stream hfr with ⟨raw, hraw, hd, rfl⟩ | ⟨e, he, rfl⟩
  · constructor
    · intro hd' c' heq
      injection heq with h1 h2
      exact ⟨raw, hraw, h2.symm⟩
    · intro e heq
      simp at heq
  · constructor
    · intro hd c heq
      simp at heq
    · intro e' heq
      injection heq with h
      rw [he, h]

theorem claim_C9_witness :
    Fragment.vllmError "<img>" ∈
      process_images_to_markdown_stream cfgRaisingStream ["p1"] ∧
    (cfgRaisingStream.vllmStream ["p1"]).2 = some "<img>" :=
  ⟨by decide,
   (claim_C9 cfgRaisingStream ["p1"] (Fragment.vllmError "<img>")
       (by decide)).2 "<img>" rfl⟩

end Docext
